import Mathlib

/-!
Verification of the execution and analysis engine of the PetriNetSimulator
repository: the local enablement computation, the fire round trip, the
branchable execution history (App.jsx, src/unnamed/part_001) and the
analysis-panel verdict derivation and local state analysis
(AnalysisPanel.jsx, src/unnamed/part_002).

JavaScript objects built via object literals and Object.fromEntries are
modelled as association lists of entries; indexing is modelled by a lookup
in which the last binding for a key wins (Object.fromEntries keeps the last
entry for a duplicate key), and a missing key reads as the code's default
(the JavaScript nullish coalescing operator). Token counts and arc weights
are non-negative integers in the source (the UI clamps them with Math.max),
so they are modelled as Nat; the user-supplied bound k of the analysis
panel is modelled as Int (Option Int, none for a non-finite input).
-/

namespace PetriNet

/-- Lookup of a key in an association list modelling a JavaScript object:
the binding written last wins, a missing key yields none. -/
def objGet {α : Type} (l : List (String × α)) (k : String) : Option α :=
  (l.reverse.find? fun p => decide (p.1 = k)).map Prod.snd

/-- Helper: find? over an association list with pairwise distinct keys
returns exactly the stored pair of the searched key. -/
theorem find?_keys_nodup {α : Type} {k : String} {v : α} :
    ∀ (l : List (String × α)), (l.map Prod.fst).Nodup → (k, v) ∈ l →
      (l.find? fun p => decide (p.1 = k)) = some (k, v) := by
  intro l
  induction l with
  | nil => intro _ h; cases h
  | cons hd tl ih =>
    intro hnd hmem
    rcases List.mem_cons.mp hmem with heq | htl
    · subst heq
      simp [List.find?]
    · have hne : hd.1 ≠ k := by
        intro he
        have h1 : hd.1 ∉ tl.map Prod.fst := (List.nodup_cons.mp hnd).1
        have h2 : k ∈ tl.map Prod.fst := List.mem_map_of_mem Prod.fst htl
        exact h1 (he ▸ h2)
      rw [List.find?_cons]
      rw [decide_eq_false hne]
      exact ih (List.nodup_cons.mp hnd).2 htl

/-- Helper: object lookup on distinct keys returns the stored value. -/
theorem objGet_eq_of_nodup {α : Type} (l : List (String × α)) (k : String) (v : α)
    (hl : (l.map Prod.fst).Nodup) (h : (k, v) ∈ l) : objGet l k = some v := by
  have h1 : (k, v) ∈ l.reverse := List.mem_reverse.mpr h
  have h2 : (l.reverse.map Prod.fst).Nodup := by
    rw [List.map_reverse]
    exact List.nodup_reverse.mpr hl
  rw [objGet, find?_keys_nodup l.reverse h2 h1]
  rfl

/-- Helper: lookup in an object built from a list by a key function. -/
theorem objGet_map_eq {α β : Type} (f : α → String) (g : α → β) (l : List α)
    (hl : (l.map f).Nodup) (a : α) (ha : a ∈ l) :
    objGet (l.map fun x => (f x, g x)) (f a) = some (g a) := by
  apply objGet_eq_of_nodup
  · rw [List.map_map]
    exact hl
  · exact List.mem_map_of_mem _ ha

/-- Node kinds of the React-Flow canvas (the `type` field of a node). -/
inductive NodeType : Type
  | place : NodeType
  | transition : NodeType
deriving DecidableEq

/-- A canvas node (App.jsx). `label` and `tokens` live in `node.data` in the
source and may be absent, hence Option; position is irrelevant to the
engine and omitted. -/
structure UINode : Type where
  id : String
  type : NodeType
  label : Option String
  tokens : Option Nat
deriving DecidableEq

/-- A canvas edge (App.jsx). `weight` lives in `edge.data` and may be
absent, hence Option (the code reads it as `e.data?.weight ?? 1`). -/
structure UIEdge : Type where
  id : String
  source : String
  target : String
  weight : Option Nat
deriving DecidableEq

/-- Translation of `computeEnabled(ns, es)` (part_001 lines 288-305): build
the place-token map and the node-type map, index the input arcs whose
target is a transition node, and keep each transition all of whose input
arcs are covered by the tokens at the arc's source (missing source reads
as 0, missing weight as 1). -/
def computeEnabled (ns : List UINode) (es : List UIEdge) : List String :=
  let placeTokens := (ns.filter fun n => decide (n.type = NodeType.place)).map
    fun p => (p.id, p.tokens.getD 0)
  let nodeById := ns.map fun n => (n.id, n.type)
  let inArcs := fun tid => es.filter fun e =>
    decide (objGet nodeById e.target = some NodeType.transition) && decide (e.target = tid)
  ((ns.filter fun n => decide (n.type = NodeType.transition)).filter fun tr =>
    (inArcs tr.id).all fun a =>
      decide (a.weight.getD 1 ≤ (objGet placeTokens a.source).getD 0)).map
    fun n => n.id

/-- Translation of `enabledAtTokens(tokens)` (part_001 lines 308-322): the
same computation as `computeEnabled`, except that the token counts are
taken from the given stored marking instead of the current nodes. -/
def enabledAtTokens (ns : List UINode) (es : List UIEdge)
    (tokens : List (String × Nat)) : List String :=
  let nodeById := ns.map fun n => (n.id, n.type)
  let inArcs := fun tid => es.filter fun e =>
    decide (objGet nodeById e.target = some NodeType.transition) && decide (e.target = tid)
  ((ns.filter fun n => decide (n.type = NodeType.transition)).filter fun tr =>
    (inArcs tr.id).all fun a =>
      decide (a.weight.getD 1 ≤ (objGet tokens a.source).getD 0)).map
    fun n => n.id

/-- Translation of `collectTokensFromNodes(ns)` (part_001 lines 342-343),
which is also the body of `getMarking` (lines 249-250): the marking as the
mapping from each place node's id to its token count. -/
def collectTokensFromNodes (ns : List UINode) : List (String × Nat) :=
  (ns.filter fun n => decide (n.type = NodeType.place)).map
    fun p => (p.id, p.tokens.getD 0)

/-- The node-type index `nodeById` built identically in `computeEnabled`
and `enabledAtTokens`. -/
def nodeByIdList (ns : List UINode) : List (String × NodeType) :=
  ns.map fun n => (n.id, n.type)

/-- The token count the derived marking assigns to an id (0 if absent). -/
def markingOf (ns : List UINode) (pid : String) : Nat :=
  (objGet (collectTokensFromNodes ns) pid).getD 0

/-- Claim C9: `computeEnabled(nodes, edges)` returns the same list of
transition ids as `enabledAtTokens(tokens)` when `tokens` is the mapping
from each place node's id to its token count (missing entries read as zero
in both); the two enablement implementations are equivalent. -/
theorem computeEnabled_eq_enabledAtTokens (ns : List UINode) (es : List UIEdge) :
    computeEnabled ns es = enabledAtTokens ns es (collectTokensFromNodes ns) := rfl

/-- Helper: a transition id is in the list returned by `computeEnabled`
exactly when some transition node carries it and every arc indexed as an
input arc of it is covered by the derived marking. -/
theorem mem_computeEnabled (ns : List UINode) (es : List UIEdge) (tid : String) :
    tid ∈ computeEnabled ns es ↔
      ∃ n ∈ ns, n.type = NodeType.transition ∧ n.id = tid ∧
        ∀ e ∈ es, objGet (nodeByIdList ns) e.target = some NodeType.transition →
          e.target = tid → e.weight.getD 1 ≤ markingOf ns e.source := by
  simp only [computeEnabled, markingOf, collectTokensFromNodes, nodeByIdList,
    List.mem_map, List.mem_filter, List.all_eq_true, decide_eq_true_eq,
    Bool.and_eq_true, and_imp]
  constructor
  · rintro ⟨n, ⟨⟨hn, hty⟩, hall⟩, hid⟩
    refine ⟨n, hn, hty, hid, ?_⟩
    intro e he h1 h2
    exact hall e he h1 (h2.trans hid.symm)
  · rintro ⟨n, hn, hty, hid, hall⟩
    refine ⟨n, ⟨⟨hn, hty⟩, ?_⟩, hid⟩
    intro e he h1 h2
    exact hall e he h1 (h2.trans hid)

/-- Claim C2: for every net (with unique node ids, and in which every arc
targeting a transition node comes from a place node, the data-model arc
invariant) and every marking derived from the place nodes, `computeEnabled`
returns exactly the set of transition ids t such that every input arc
(p -> t) with weight w satisfies marking[p] >= w; in particular a
transition with no input arcs is always in the returned set. -/
theorem computeEnabled_correct (ns : List UINode) (es : List UIEdge) (tid : String)
    (hnodup : (ns.map fun n => n.id).Nodup)
    (hpt : ∀ e ∈ es, (∃ n ∈ ns, n.id = e.target ∧ n.type = NodeType.transition) →
      ∃ n ∈ ns, n.id = e.source ∧ n.type = NodeType.place) :
    (tid ∈ computeEnabled ns es ↔
      (∃ n ∈ ns, n.type = NodeType.transition ∧ n.id = tid) ∧
        ∀ e ∈ es, e.target = tid →
          (∃ p ∈ ns, p.type = NodeType.place ∧ p.id = e.source) →
            e.weight.getD 1 ≤ markingOf ns e.source) ∧
    ((∃ n ∈ ns, n.type = NodeType.transition ∧ n.id = tid) →
      (∀ e ∈ es, e.target ≠ tid) → tid ∈ computeEnabled ns es) := by
  have hbyid : ∀ n ∈ ns, objGet (nodeByIdList ns) n.id = some n.type := by
    intro n hn
    exact objGet_map_eq (fun x => x.id) (fun x => x.type) ns hnodup n hn
  constructor
  · rw [mem_computeEnabled]
    constructor
    · rintro ⟨n, hn, hty, hid, hcond⟩
      refine ⟨⟨n, hn, hty, hid⟩, ?_⟩
      intro e he htgt _
      refine hcond e he ?_ htgt
      rw [htgt, ← hid]
      rw [hbyid n hn, hty]
    · rintro ⟨⟨n, hn, hty, hid⟩, hall⟩
      refine ⟨n, hn, hty, hid, ?_⟩
      intro e he _ htgt
      have hex : ∃ n2 ∈ ns, n2.id = e.target ∧ n2.type = NodeType.transition :=
        ⟨n, hn, by rw [hid, htgt], hty⟩
      rcases hpt e he hex with ⟨p, hp, hpid, hpty⟩
      exact hall e he htgt ⟨p, hp, hpty, hpid⟩
  · rintro ⟨n, hn, hty, hid⟩ hnone
    rw [mem_computeEnabled]
    exact ⟨n, hn, hty, hid, fun e he _ htgt => absurd htgt (hnone e he)⟩

/-- The example net seeded by the demo button (part_001 lines 459-466):
places P1 (1 token) and P2 (0 tokens), transition T1, arcs P1 -> T1 and
T1 -> P2, both of weight 1, in canvas-node form. -/
def exNodes : List UINode :=
  [{ id := "P1", type := NodeType.place, label := some "P1", tokens := some 1 },
   { id := "P2", type := NodeType.place, label := some "P2", tokens := some 0 },
   { id := "T1", type := NodeType.transition, label := some "T1", tokens := none }]

/-- The arcs of the demo net in canvas-edge form. -/
def exEdges : List UIEdge :=
  [{ id := "A1", source := "P1", target := "T1", weight := some 1 },
   { id := "A2", source := "T1", target := "P2", weight := some 1 }]

/-- Witness for C2: the demo net satisfies both hypotheses, and T1 (whose
single input arc P1 -> T1 is covered by the 1 token on P1) is enabled. -/
theorem computeEnabled_correct_witness :
    ((exNodes.map fun n => n.id).Nodup) ∧
    (∀ e ∈ exEdges, (∃ n ∈ exNodes, n.id = e.target ∧ n.type = NodeType.transition) →
      ∃ n ∈ exNodes, n.id = e.source ∧ n.type = NodeType.place) ∧
    "T1" ∈ computeEnabled exNodes exEdges :=
  ⟨by decide, by decide,
    (computeEnabled_correct exNodes exEdges "T1" (by decide) (by decide)).1.mpr
      ⟨by decide, by decide⟩⟩

/-- A history entry (part_001 line 128 comment): the transition fired to
reach it (null for the initial entry), the resulting marking, and a
timestamp. -/
structure Step : Type where
  fired : Option String
  tokens : List (String × Nat)
  ts : Nat
deriving DecidableEq

/-- Default entry used only to total the in-bounds list indexing of the
source (history[idx] is read behind an explicit bounds guard). -/
def defaultStep : Step := { fired := none, tokens := [], ts := 0 }

/-- The component state of App relevant to the engine: the canvas nodes
and edges, the recorded history, the cursor hIndex (-1 while there is no
history), the auto-run flag, the displayed enabled set and the error
message (the empty string when none is shown). -/
structure AppState : Type where
  nodes : List UINode
  edges : List UIEdge
  history : List Step
  hIndex : Int
  autoRun : Bool
  enabled : List String
  error : String
deriving DecidableEq

/-- Translation of `clearHistory` (part_001 lines 150-152). -/
def clearHistory (s : AppState) : AppState :=
  { s with history := [], hIndex := -1 }

/-- Translation of `ensureHistoryInit` (part_001 lines 345-350): when the
history is empty, record the initial entry holding the current marking and
set the cursor to it; otherwise do nothing. -/
def ensureHistoryInit (s : AppState) (ts : Nat) : AppState :=
  if 0 < s.history.length then s
  else { s with
    history := [{ fired := none, tokens := collectTokensFromNodes s.nodes, ts := ts }],
    hIndex := 0 }

/-- Translation of `appendHistory` (part_001 lines 352-359): truncate the
entries after the cursor (all of them when the cursor is -1), append the
new entry and advance the cursor. -/
def appendHistory (s : AppState) (newStep : Step) : AppState :=
  let head := if 0 ≤ s.hIndex then s.history.take (s.hIndex.toNat + 1) else []
  { s with history := head ++ [newStep], hIndex := s.hIndex + 1 }

/-- Translation of the node update common to `applyStep` (part_001 lines
361-369) and the success branch of `fire` (lines 402-405): every place
node receives the token count the given marking assigns to its id
(0 when absent), other nodes are untouched. -/
def applyTokens (ns : List UINode) (tks : List (String × Nat)) : List UINode :=
  ns.map fun n =>
    if n.type = NodeType.place then { n with tokens := some ((objGet tks n.id).getD 0) }
    else n

/-- Translation of `goTo` (part_001 lines 371-376): out-of-bounds indices
are rejected without any change; an in-bounds index stops auto-run, moves
the cursor and applies the stored marking of that entry to the nodes,
recomputing the enabled set (`applyStep`, lines 361-369). -/
def goTo (s : AppState) (idx : Int) : AppState :=
  if idx < 0 ∨ (s.history.length : Int) ≤ idx then s
  else
    let st := s.history.getD idx.toNat defaultStep
    let updated := applyTokens s.nodes st.tokens
    { s with
      autoRun := false
      hIndex := idx
      nodes := updated
      enabled := computeEnabled updated s.edges }

/-- Translation of `fire` (part_001 lines 384-416) as a state
transformation parameterised over the outcome of the POST /simulate/fire
round trip: the error display is cleared, then `ensureHistoryInit` runs
(before the request). On failure (resp = none: rejected transition or
request error) only the error message is set. On success the returned
marking is applied to the nodes, the enabled set recomputed and the new
step recorded branching from the cursor. The isFiring re-entrancy guard
returns the state unchanged and is omitted. -/
def fire (s : AppState) (tid : String) (resp : Option (List (String × Nat)))
    (msg : String) (ts : Nat) : AppState :=
  let s1 := ensureHistoryInit { s with error := "" } ts
  match resp with
  | none => { s1 with error := msg }
  | some tks =>
    let updated := applyTokens s1.nodes tks
    appendHistory
      { s1 with nodes := updated, enabled := computeEnabled updated s1.edges }
      { fired := some tid, tokens := tks, ts := ts }

/-- Translation of `updateSelected` (part_001 lines 198-206) specialised
to the Inspector's label field for a selected node (lines 1006-1012):
the matching node's data is replaced with data carrying the new label.
No call of `clearHistory` occurs on this path. -/
def updateSelectedLabel (s : AppState) (selId : String) (lbl : String) : AppState :=
  { s with nodes := s.nodes.map fun n =>
      if n.id = selId then { n with label := some lbl } else n }

/-- Translation of `updateSelected` specialised to the Inspector's token
field for a selected place (part_001 lines 1014-1024). No call of
`clearHistory` occurs on this path. -/
def updateSelectedTokens (s : AppState) (selId : String) (val : Nat) : AppState :=
  { s with nodes := s.nodes.map fun n =>
      if n.id = selId then { n with tokens := some val } else n }

/-- Translation of `updateSelected` specialised to the Inspector's weight
field for a selected edge (part_001 lines 1031-1042). No call of
`clearHistory` occurs on this path. -/
def updateSelectedWeight (s : AppState) (selId : String) (val : Nat) : AppState :=
  { s with edges := s.edges.map fun e =>
      if e.id = selId then { e with weight := some val } else e }

/-- A session on the demo net before any simulation step: no history yet
(hIndex -1, as initialised in part_001 line 130). -/
def exState : AppState :=
  { nodes := exNodes, edges := exEdges, history := [], hIndex := -1,
    autoRun := false, enabled := [], error := "" }

/-- The initial history entry recorded for the demo net. -/
def exStep0 : Step := { fired := none, tokens := [("P1", 1), ("P2", 0)], ts := 0 }

/-- A session on the demo net whose history holds the initial entry. -/
def exState2 : AppState :=
  { nodes := exNodes, edges := exEdges, history := [exStep0], hIndex := 0,
    autoRun := false, enabled := ["T1"], error := "" }

/-- Counterexample to claim C3 as stated: from a state with an empty
history, a failing `fire` call does not leave the history as it was —
`ensureHistoryInit` runs before the request and its initialisation
survives the failure, so the failed call creates a one-entry history. -/
theorem fire_failure_changes_empty_history :
    (fire exState "T1" none "Request failed" 7).history ≠ exState.history := by decide

/-- Claim C3 (amended): a `fire` call that fails (rejected transition or
request error) leaves the marking (the nodes) and the edges unchanged and
appends no step entry; an already non-empty history and its cursor are
left exactly as they were, but if the history was empty at the time of the
call, the failed call still initialises it with a single initial entry
holding the current marking (cursor 0), because `ensureHistoryInit` runs
before the request is sent. -/
theorem fire_failure_frame (s : AppState) (tid msg : String) (ts : Nat) :
    (fire s tid none msg ts).nodes = s.nodes ∧
    (fire s tid none msg ts).edges = s.edges ∧
    (s.history ≠ [] →
      (fire s tid none msg ts).history = s.history ∧
      (fire s tid none msg ts).hIndex = s.hIndex) ∧
    (s.history = [] →
      (fire s tid none msg ts).history =
        [{ fired := none, tokens := collectTokensFromNodes s.nodes, ts := ts }] ∧
      (fire s tid none msg ts).hIndex = 0) := by
  cases hs : s.history with
  | nil => simp [fire, ensureHistoryInit, hs]
  | cons a l =>
    refine ⟨?_, ?_, ?_, ?_⟩ <;> simp [fire, ensureHistoryInit, hs]

/-- Witness for the amended C3: on a session with a non-empty history a
failing fire leaves the history untouched. -/
theorem fire_failure_frame_witness :
    exState2.history ≠ [] ∧
    (fire exState2 "T1" none "NotEnabled" 9).history = exState2.history :=
  ⟨by decide, ((fire_failure_frame exState2 "T1" "NotEnabled" 9).2.2.1 (by decide)).1⟩

/-- The entry recorded after firing T1 on the demo net. -/
def exStep1 : Step := { fired := some "T1", tokens := [("P1", 0), ("P2", 1)], ts := 3 }

/-- A session on the demo net with two history entries, cursor on the
last. -/
def exState3 : AppState :=
  { nodes := applyTokens exNodes exStep1.tokens, edges := exEdges,
    history := [exStep0, exStep1], hIndex := 1,
    autoRun := false, enabled := [], error := "" }

/-- A fresh step used to branch the history of the example session. -/
def exStepNew : Step := { fired := some "T1", tokens := [("P1", 0), ("P2", 1)], ts := 11 }

/-- Claim C4: with a valid index i, `goTo i` followed by `appendHistory`
of a new step yields a history equal to the old entries 0..i followed by
the new step: its length is i+2, its first i+1 entries are unchanged, its
entry i+1 is the appended step (every entry beyond i that existed before
is discarded), and the cursor afterwards is i+1. -/
theorem goto_then_append (s : AppState) (i : Nat) (st : Step)
    (hi : i < s.history.length) :
    (appendHistory (goTo s (i : Int)) st).history = s.history.take (i + 1) ++ [st] ∧
    (appendHistory (goTo s (i : Int)) st).history.length = i + 2 ∧
    (appendHistory (goTo s (i : Int)) st).history.take (i + 1) = s.history.take (i + 1) ∧
    (appendHistory (goTo s (i : Int)) st).history.get? (i + 1) = some st ∧
    (appendHistory (goTo s (i : Int)) st).hIndex = (i : Int) + 1 := by
  have hguard : ¬ ((i : Int) < 0 ∨ (s.history.length : Int) ≤ (i : Int)) := by
    push_neg
    constructor
    · exact Int.ofNat_nonneg i
    · exact_mod_cast hi
  have hgo : goTo s (i : Int) =
      { s with
        autoRun := false
        hIndex := (i : Int)
        nodes := applyTokens s.nodes (s.history.getD (Int.toNat i) defaultStep).tokens
        enabled := computeEnabled
          (applyTokens s.nodes (s.history.getD (Int.toNat i) defaultStep).tokens) s.edges } := by
    rw [goTo, if_neg hguard]
  have htn : (Int.toNat (i : Int)) = i := Int.toNat_ofNat i
  have happ : (appendHistory (goTo s (i : Int)) st).history =
      s.history.take (i + 1) ++ [st] := by
    rw [appendHistory, hgo]
    simp only [if_pos (Int.ofNat_nonneg i), htn]
  have hlen1 : (s.history.take (i + 1)).length = i + 1 := by
    rw [List.length_take]
    omega
  refine ⟨happ, ?_, ?_, ?_, ?_⟩
  · rw [happ, List.length_append, hlen1]
    rfl
  · rw [happ]
    calc (s.history.take (i + 1) ++ [st]).take (i + 1)
        = (s.history.take (i + 1) ++ [st]).take (s.history.take (i + 1)).length := by
          rw [hlen1]
      _ = s.history.take (i + 1) := List.take_left _ _
  · rw [happ]
    calc (s.history.take (i + 1) ++ [st]).get? (i + 1)
        = (s.history.take (i + 1) ++ [st]).get? (s.history.take (i + 1)).length := by
          rw [hlen1]
      _ = some st := by
          rw [List.get?_eq_getElem?]
          exact List.getElem?_concat_length _ _
  · rw [appendHistory, hgo]

/-- Witness for C4: on a session holding two history entries, rewinding to
index 0 and appending a new step yields exactly the first old entry
followed by the new one. -/
theorem goto_then_append_witness :
    0 < exState3.history.length ∧
    (appendHistory (goTo exState3 (0 : Int)) exStepNew).history =
      exState3.history.take 1 ++ [exStepNew] :=
  ⟨by decide, (goto_then_append exState3 0 exStepNew (by decide)).1⟩

/-- Claim C6: `goTo i` is accepted exactly when 0 <= i < length; when
accepted it moves the cursor to i and leaves the sequence of history
entries (count, order, fired transitions, markings, timestamps)
unchanged; when rejected it changes nothing at all. -/
theorem goTo_frame (s : AppState) (i : Int) :
    ((0 ≤ i ∧ i < (s.history.length : Int)) →
      (goTo s i).hIndex = i ∧ (goTo s i).history = s.history) ∧
    (¬ (0 ≤ i ∧ i < (s.history.length : Int)) → goTo s i = s) := by
  constructor
  · intro h
    have hguard : ¬ (i < 0 ∨ (s.history.length : Int) ≤ i) := by omega
    rw [goTo, if_neg hguard]
    exact ⟨rfl, rfl⟩
  · intro h
    have hguard : i < 0 ∨ (s.history.length : Int) ≤ i := by omega
    rw [goTo, if_pos hguard]

/-- Witness for C6: index 0 is accepted on a two-entry history, moving the
cursor there and keeping the entries; index 5 is rejected and the state is
returned unchanged. -/
theorem goTo_frame_witness :
    ((0 : Int) ≤ 0 ∧ (0 : Int) < (exState3.history.length : Int)) ∧
    (goTo exState3 0).history = exState3.history ∧
    (¬ ((0 : Int) ≤ 5 ∧ (5 : Int) < (exState3.history.length : Int))) ∧
    goTo exState3 5 = exState3 :=
  ⟨by decide, ((goTo_frame exState3 0).1 (by decide)).2, by decide,
    (goTo_frame exState3 5).2 (by decide)⟩

/-- Claim C5 (code evaluated at the failing input): editing the net via
the Inspector — a place's token count, a node's label, or an arc's
weight, all going through `updateSelected` — leaves a non-empty execution
history (and its cursor) completely unchanged, although the spec requires
the history to be cleared on every structural edit. Adding or removing
nodes and arcs does clear it (clearHistory is called at those sites), but
no such call exists on the `updateSelected` path. -/
theorem updateSelected_keeps_history :
    (updateSelectedTokens exState2 "P1" 5).history = exState2.history ∧
    (updateSelectedTokens exState2 "P1" 5).hIndex = exState2.hIndex ∧
    (updateSelectedLabel exState2 "P1" "renamed").history = exState2.history ∧
    (updateSelectedWeight exState2 "A1" 3).history = exState2.history ∧
    exState2.history ≠ [] ∧
    (updateSelectedTokens exState2 "P1" 5).nodes ≠ exState2.nodes := by decide

/-- A place of the net snapshot sent to the analysis panel (`toNet`,
part_001 lines 240-245); canvas coordinates are irrelevant and omitted. -/
structure NPlace : Type where
  id : String
  label : String
  tokens : Nat
deriving DecidableEq

/-- A transition of the net snapshot. -/
structure NTransition : Type where
  id : String
  label : String
deriving DecidableEq

/-- An arc of the net snapshot; the weight may be absent (the panel reads
it as `a.weight ?? 1`). -/
structure NArc : Type where
  id : String
  src : String
  dst : String
  weight : Option Nat
deriving DecidableEq

/-- The net snapshot handed to AnalysisPanel. -/
structure Net : Type where
  places : List NPlace
  transitions : List NTransition
  arcs : List NArc
deriving DecidableEq

/-- Translation of the enabled-set computation of `localAnalyze`
(part_002 lines 24-40): arcs are indexed as input arcs only when their
target is a transition id and their source a place id of the net; a
transition is kept when each of its input arcs finds at least its weight
at its source place in the marking (missing entry 0, missing weight 1). -/
def localAnalyzeEnabled (net : Net) (m : List (String × Nat)) : List String :=
  let placeIds : List String := net.places.map fun p => p.id
  let transIds : List String := net.transitions.map fun t => t.id
  let inArcs := fun tid => net.arcs.filter fun a =>
    decide (a.dst ∈ transIds) && decide (a.src ∈ placeIds) && decide (a.dst = tid)
  (net.transitions.filter fun t =>
    (inArcs t.id).all fun a =>
      decide (a.weight.getD 1 ≤ (objGet m a.src).getD 0)).map fun t => t.id

/-- Translation of the deadlock flag of `localAnalyze` (part_002 line 38):
deadlocked is set exactly when the computed enabled list is empty. -/
def localAnalyzeDeadlocked (net : Net) (m : List (String × Nat)) : Bool :=
  decide ((localAnalyzeEnabled net m).length = 0)

/-- Translation of the deadlock flag shown for a backend response
(part_002 line 58): the backend flag, or an empty enabled list. -/
def panelStateDeadlocked (serverDeadlocked : Bool) (serverEnabled : List String) : Bool :=
  serverDeadlocked || decide (serverEnabled.length = 0)

/-- The enablement predicate of `localAnalyze` in propositional form: every
arc of the net that is indexed as an input arc of t (target is a
transition id, source a place id, target equal to t's id) is covered by
the marking. -/
def LocalEnabled (net : Net) (m : List (String × Nat)) (t : NTransition) : Prop :=
  ∀ a ∈ net.arcs,
    a.dst ∈ (net.transitions.map fun t2 => t2.id) →
    a.src ∈ (net.places.map fun p => p.id) →
    a.dst = t.id →
    a.weight.getD 1 ≤ (objGet m a.src).getD 0

/-- Helper: membership in the enabled list of `localAnalyze`. -/
theorem mem_localAnalyzeEnabled (net : Net) (m : List (String × Nat)) (tid : String) :
    tid ∈ localAnalyzeEnabled net m ↔
      ∃ t ∈ net.transitions, t.id = tid ∧ LocalEnabled net m t := by
  simp only [localAnalyzeEnabled, LocalEnabled, List.mem_map, List.mem_filter,
    List.all_eq_true, decide_eq_true_eq, Bool.and_eq_true, and_imp]
  constructor
  · rintro ⟨t, ⟨ht, hall⟩, hid⟩
    exact ⟨t, ht, hid, fun a ha h1 h2 h3 => hall a ha h1 h2 h3⟩
  · rintro ⟨t, ht, hid, hall⟩
    exact ⟨t, ⟨ht, fun a ha h1 h2 h3 => hall a ha h1 h2 h3⟩, hid⟩

/-- Helper: the enabled list of `localAnalyze` is empty exactly when no
transition of the net satisfies the enablement predicate. -/
theorem localAnalyzeEnabled_eq_nil (net : Net) (m : List (String × Nat)) :
    localAnalyzeEnabled net m = [] ↔
      ∀ t ∈ net.transitions, ¬ LocalEnabled net m t := by
  constructor
  · intro h t ht hen
    have : t.id ∈ localAnalyzeEnabled net m :=
      (mem_localAnalyzeEnabled net m t.id).mpr ⟨t, ht, rfl, hen⟩
    rw [h] at this
    cases this
  · intro h
    by_contra hne
    rcases List.exists_mem_of_ne_nil _ hne with ⟨tid, htid⟩
    rcases (mem_localAnalyzeEnabled net m tid).mp htid with ⟨t, ht, _, hen⟩
    exact h t ht hen

/-- Claim C8: the local state analysis reports deadlocked = true exactly
when the set of transitions enabled under the current marking is empty:
membership in its enabled list is characterised by the enablement
predicate over the current marking alone (no reachability search), the
deadlock flag is true exactly when that list is empty, i.e. exactly when
no transition of the net is enabled; and the flag displayed for a backend
analyzeState response is the backend flag or an empty enabled list. -/
theorem localAnalyze_deadlocked_iff (net : Net) (m : List (String × Nat)) :
    (∀ tid, tid ∈ localAnalyzeEnabled net m ↔
      ∃ t ∈ net.transitions, t.id = tid ∧ LocalEnabled net m t) ∧
    (localAnalyzeDeadlocked net m = true ↔ localAnalyzeEnabled net m = []) ∧
    (localAnalyzeDeadlocked net m = true ↔
      ∀ t ∈ net.transitions, ¬ LocalEnabled net m t) ∧
    (∀ (d : Bool) (en : List String),
      panelStateDeadlocked d en = true ↔ (d = true ∨ en = [])) := by
  have hlen : localAnalyzeDeadlocked net m = true ↔ localAnalyzeEnabled net m = [] := by
    rw [localAnalyzeDeadlocked, decide_eq_true_eq, List.length_eq_zero]
  refine ⟨mem_localAnalyzeEnabled net m, hlen, ?_, ?_⟩
  · rw [hlen]
    exact localAnalyzeEnabled_eq_nil net m
  · intro d en
    rw [panelStateDeadlocked, Bool.or_eq_true, decide_eq_true_eq, List.length_eq_zero]

/-- The demo net in the snapshot form sent to the analysis panel. -/
def exNet : Net :=
  { places := [{ id := "P1", label := "P1", tokens := 1 },
               { id := "P2", label := "P2", tokens := 0 }],
    transitions := [{ id := "T1", label := "T1" }],
    arcs := [{ id := "A1", src := "P1", dst := "T1", weight := some 1 },
             { id := "A2", src := "T1", dst := "P2", weight := some 1 }] }

/-- Witness for C8 applied to the demo net after firing T1 (marking
P1 = 0, P2 = 1): the analysis reports a deadlock and indeed the enabled
list is empty. -/
theorem localAnalyze_deadlocked_iff_witness :
    localAnalyzeDeadlocked exNet [("P1", 0), ("P2", 1)] = true ↔
      localAnalyzeEnabled exNet [("P1", 0), ("P2", 1)] = [] :=
  (localAnalyze_deadlocked_iff exNet [("P1", 0), ("P2", 1)]).2.1

/-- Claim C10: the local analysis is total on nets with dangling arcs (in
this model a total function, never an error), and a dangling arc — source
id not a place of the net, or target id not a transition of the net — is
excluded from the input-arc index, so a transition all of whose incoming
arcs have non-place sources is reported as enabled whatever the marking. -/
theorem localAnalyze_dangling (net : Net) (m : List (String × Nat)) (t : NTransition)
    (ht : t ∈ net.transitions)
    (hd : ∀ a ∈ net.arcs, a.dst = t.id → ¬ (a.src ∈ (net.places.map fun p => p.id))) :
    t.id ∈ localAnalyzeEnabled net m := by
  refine (mem_localAnalyzeEnabled net m t.id).mpr ⟨t, ht, rfl, ?_⟩
  intro a ha _ hsrc hdst
  exact absurd hsrc (hd a ha hdst)

/-- A net whose only arc dangles: its source X9 names no node of the net. -/
def exNetDangling : Net :=
  { places := [{ id := "P1", label := "P1", tokens := 0 }],
    transitions := [{ id := "T1", label := "T1" }],
    arcs := [{ id := "A1", src := "X9", dst := "T1", weight := some 1 }] }

/-- Witness for C10: T1's only incoming arc comes from the unknown id X9,
and T1 is reported enabled even under the empty marking. -/
theorem localAnalyze_dangling_witness :
    ({ id := "T1", label := "T1" } : NTransition) ∈ exNetDangling.transitions ∧
    (∀ a ∈ exNetDangling.arcs, a.dst = "T1" →
      ¬ (a.src ∈ (exNetDangling.places.map fun p => p.id))) ∧
    "T1" ∈ localAnalyzeEnabled exNetDangling [] :=
  ⟨by decide, by decide,
    localAnalyze_dangling exNetDangling [] { id := "T1", label := "T1" }
      (by decide) (by decide)⟩

/-- The verdict badges of the analysis panel; dash is the em-dash shown
when no finite k was entered. -/
inductive Verdict : Type
  | yes : Verdict
  | no : Verdict
  | unknown : Verdict
  | dash : Verdict
deriving DecidableEq

/-- Translation of the per-place verdict of `placeVerdicts` (part_002
lines 97-117): with no finite k the dash; with the full state space
explored (hit_limits false) Yes when the observed maximum is at most k and
No otherwise; with the search cut short (hit_limits true) No when the
observed maximum exceeds k and Unknown otherwise. -/
def placeVerdictFor (k : Option Int) (hit : Bool) (maxSeen : Int) : Verdict :=
  match k with
  | none => Verdict.dash
  | some kv =>
    if hit = false then (if maxSeen ≤ kv then Verdict.yes else Verdict.no)
    else (if kv < maxSeen then Verdict.no else Verdict.unknown)

/-- Translation of `placeVerdicts` (part_002 lines 97-117): one verdict
per entry of the reported per-place maxima. -/
def placeVerdicts (k : Option Int) (hit : Bool)
    (placeMax : List (String × Int)) : List (String × Verdict) :=
  placeMax.map fun pm => (pm.1, placeVerdictFor k hit pm.2)

/-- Claim C1: for an analysis result with hit_limits = true and a finite
k, the per-place verdict is No exactly when the observed maximum exceeds
k (an actual witness was found), is Unknown whenever the observed maximum
is at most k, and is never Yes — a cut-short search never claims Yes, and
never claims No without a witness. -/
theorem placeVerdict_hitLimits (k m : Int) (pm : List (String × Int)) :
    (placeVerdictFor (some k) true m = Verdict.no ↔ k < m) ∧
    (m ≤ k → placeVerdictFor (some k) true m = Verdict.unknown) ∧
    placeVerdictFor (some k) true m ≠ Verdict.yes ∧
    (∀ pr ∈ placeVerdicts (some k) true pm, pr.2 ≠ Verdict.yes) := by
  refine ⟨?_, ?_, ?_, ?_⟩
  · by_cases h : k < m <;> simp [placeVerdictFor, h]
  · intro h
    have h2 : ¬ k < m := by omega
    simp [placeVerdictFor, h2]
  · by_cases h : k < m <;> simp [placeVerdictFor, h]
  · intro pr hpr
    rcases List.mem_map.mp hpr with ⟨e, _, he⟩
    rw [← he]
    by_cases h : k < e.2 <;> simp [placeVerdictFor, h]

/-- Witness for C1: with k = 1 and a search that hit its limits, an
observed maximum of 0 is within the bound and yields Unknown. -/
theorem placeVerdict_hitLimits_witness :
    (0 : Int) ≤ 1 ∧ placeVerdictFor (some 1) true 0 = Verdict.unknown :=
  ⟨by decide, (placeVerdict_hitLimits 1 0 []).2.1 (by decide)⟩

/-- Claim C7: for an analysis result with hit_limits = false and a finite
k, the per-place verdict is Yes exactly when the observed maximum is at
most k and No otherwise — the verdict list is exactly the pointwise
comparison against k, never Unknown. -/
theorem placeVerdict_exact (k m : Int) (pm : List (String × Int)) :
    (placeVerdictFor (some k) false m = Verdict.yes ↔ m ≤ k) ∧
    (k < m → placeVerdictFor (some k) false m = Verdict.no) ∧
    (placeVerdictFor (some k) false m = Verdict.yes ∨
      placeVerdictFor (some k) false m = Verdict.no) ∧
    placeVerdicts (some k) false pm =
      pm.map fun pr => (pr.1, if pr.2 ≤ k then Verdict.yes else Verdict.no) := by
  refine ⟨?_, ?_, ?_, ?_⟩
  · by_cases h : m ≤ k <;> simp [placeVerdictFor, h]
  · intro h
    have h2 : ¬ m ≤ k := by omega
    simp [placeVerdictFor, h2]
  · by_cases h : m ≤ k <;> simp [placeVerdictFor, h]
  · rw [placeVerdicts]
    refine List.map_congr_left ?_
    intro e _
    by_cases h : e.2 ≤ k <;> simp [placeVerdictFor, h]

/-- Witness for C7: with k = 1 and the full state space explored, an
observed maximum of 2 exceeds the bound and yields the exact verdict No. -/
theorem placeVerdict_exact_witness :
    (1 : Int) < 2 ∧ placeVerdictFor (some 1) false 2 = Verdict.no :=
  ⟨by decide, (placeVerdict_exact 1 2 []).2.1 (by decide)⟩

end PetriNet
